import Mathlib

/-!
Shallow embedding of the system-monitor application in `src/main.rs`
(an `iced` GUI around `sysinfo`).  The embedded parts are the ones the
verified properties are about: the two rolling history buffers, the
process ranking (a stable descending sort by raw cpu percent), the CSV
export, the terminate command and the `update` reducer that drives them.
`f32` values are modelled as rationals, except where `NaN` matters for
`partial_cmp`, where a dedicated sum type carries it.  Widget layout,
colors and the event-loop wiring are external collaborators and stay
outside the model.
-/

/-- Model of an `f32` CPU reading: a numeric value (as a rational) or the
floating-point `NaN`, on which `partial_cmp` returns `None`. -/
inductive FVal where
  | nan : FVal
  | val : ℚ → FVal
deriving DecidableEq

/-- `f32::partial_cmp`: defined on two numeric values, `None` when either
operand is `NaN`. -/
def FVal.partCmp : FVal → FVal → Option Ordering
  | .val a, .val b => some (if a < b then .lt else if b < a then .gt else .eq)
  | _, _ => none

/-- Whether the reading is the `NaN` value. -/
def FVal.isNan : FVal → Bool
  | .nan => true
  | .val _ => false

/-- The numeric value of a reading (junk default `0` for `NaN`; all uses are
guarded by `isNan = false`). -/
def FVal.valOf : FVal → ℚ
  | .nan => 0
  | .val q => q

/-- f32 division by a constant, as in `process.cpu_usage() / cpu_count`
(`NaN` propagates). -/
def FVal.div : FVal → ℚ → FVal
  | .nan, _ => .nan
  | .val q, c => .val (q / c)

/-- One entry of `self.system.processes()`: the fields the program reads
(`pid()`, `name()`, `cpu_usage()`, `memory()`). -/
structure ProcessRecord where
  pid : ℕ
  name : String
  cpu_usage : FVal
  memory : ℕ
deriving DecidableEq

/-- The `Theme` enum (line 13). -/
inductive Theme where
  | Light
  | Dark
deriving DecidableEq

/-- The `Screen` enum (line 79). -/
inductive Screen where
  | Main
  | Graph
deriving DecidableEq

/-- The readings the `sysinfo::System` handle holds after a `refresh_all`:
global CPU percent, used memory in bytes, the logical-cpu count
(`cpus().len()`) and the process table. -/
structure SysState where
  global_cpu : ℚ
  used_memory : ℕ
  cpu_count : ℕ
  processes : List ProcessRecord
deriving DecidableEq

/-- The `SystemMonitor` application state (lines 68–76). -/
structure SystemMonitor where
  system : SysState
  cpu_usage : ℚ
  memory_usage_mb : ℚ
  screen : Screen
  cpu_history : List ℚ
  memory_history : List ℚ
  current_theme : Theme
deriving DecidableEq

/-- The `Message` enum (lines 81–89).  `Tick` carries the readings its
`refresh_all()` call obtains from the OS (the environment's input). -/
inductive Message where
  | Tick (sample : SysState)
  | GoToGraph
  | BackToMain
  | ThemeChanged (t : Theme)
  | EndTask (pid : ℕ)
  | ExportCSV

/-- One history update, the code shape both buffers use (lines 229–233):
`push(v)` then `if len() > 100 { remove(0) }`. -/
def histAppend (h : List ℚ) (v : ℚ) : List ℚ :=
  let h2 := h ++ [v]
  if 100 < h2.length then h2.eraseIdx 0 else h2

/-- The sort comparator
`|a, b| b.cpu_usage().partial_cmp(&a.cpu_usage()).unwrap()` (lines 241
and 305); `none` is the `unwrap` panic. -/
def processCmp (a b : ProcessRecord) : Option Ordering :=
  FVal.partCmp b.cpu_usage a.cpu_usage

/-- Stable insertion of `x` into an already ranked list, propagating a
comparator panic.  `x` stands before `y` unless the comparator orders `y`
strictly first; on a tie `x` (the element earlier in the input) stays in
front, which is exactly `Vec::sort_by`'s stability guarantee. -/
def insertRanked (x : ProcessRecord) : List ProcessRecord → Option (List ProcessRecord)
  | [] => some [x]
  | y :: ys =>
    match processCmp y x with
    | none => none
    | some .lt => (insertRanked x ys).map (fun l => y :: l)
    | some _ => some (x :: y :: ys)

/-- `processes.sort_by(comparator)` (lines 240–241 and 304–305) as a stable
sort: on panic-free runs `Vec::sort_by` (a stable sort) produces exactly the
order this stable insertion sort produces. -/
def rankProcesses : List ProcessRecord → Option (List ProcessRecord)
  | [] => some []
  | x :: xs => (rankProcesses xs).bind (insertRanked x)

/-- The fixed header line of the export (line 244). -/
def csvHeader : String := "Process_Name,Normalized_CPU_Percent,Memory_Usage_MB\n"

/-- `process.name().replace(",", ".")` (line 249): for a one-character
pattern and replacement, `str::replace` substitutes every comma by a
period, character for character. -/
def sanitizeName (s : String) : String :=
  String.mk (s.data.map (fun c => if c = ',' then '.' else c))

/-- Two digits for the fractional part of a two-decimal print. -/
def pad2 (n : ℕ) : String :=
  if n < 10 then "0" ++ toString n else toString n

/-- Two-decimal formatting of a numeric value, modelling Rust's `{:.2}`:
the value rounded to the nearest hundredth, printed with exactly two
fractional digits. -/
def fmt2 (q : ℚ) : String :=
  let n : ℤ := round (q * 100)
  (if n < 0 then "-" else "") ++ toString (n.natAbs / 100) ++ "." ++ pad2 (n.natAbs % 100)

/-- `{:.2}` applied to an f32 reading that may be `NaN`. -/
def fmtF2 : FVal → String
  | .nan => "NaN"
  | .val q => fmt2 q

/-- `process.cpu_usage() / cpu_count`, the normalized CPU percent computed
for the export (line 247) and for the table rows (line 324). -/
def normalizedCpuUsage (p : ProcessRecord) (cpu_count : ℚ) : FVal :=
  p.cpu_usage.div cpu_count

/-- One record of the export,
`format!("{}, {:.2}, {:.2}\n", sanitized_name, normalized_cpu_usage, mem_mb)`
(lines 246–257), with `mem_mb = memory() as f64 / 1000000.0`. -/
def csvLine (cpu_count : ℚ) (p : ProcessRecord) : String :=
  sanitizeName p.name ++ ", " ++ fmtF2 (normalizedCpuUsage p cpu_count) ++ ", " ++
    fmt2 ((p.memory : ℚ) / 1000000) ++ "\n"

/-- The full text the export writes: the header, then one line per ranked
process (lines 244–257). -/
def buildCsv (cpu_count : ℚ) (ranked : List ProcessRecord) : String :=
  csvHeader ++ String.join (ranked.map (csvLine cpu_count))

/-- The externally visible effects of one `update` call: the text handed to
`fs::write` (for `ExportCSV`) and the pid a `kill()` was issued for (for
`EndTask`). -/
structure UpdateOutput where
  exported : Option String
  killSig : Option ℕ
deriving DecidableEq

/-- No effect. -/
def noOut : UpdateOutput := ⟨none, none⟩

/-- `SystemMonitor::update` (lines 222–266).  `none` models the panic of the
`unwrap` on line 241 (reachable only from `ExportCSV`); every other arm
returns the new state and its effects.  `Tick`'s fresh OS readings ride on
the message. -/
def update (m : SystemMonitor) (msg : Message) : Option (SystemMonitor × UpdateOutput) :=
  match msg with
  | .Tick s =>
    let cpu := s.global_cpu
    let memMb : ℚ := (s.used_memory : ℚ) / 1000000
    some ({ m with
            system := s, cpu_usage := cpu, memory_usage_mb := memMb,
            cpu_history := histAppend m.cpu_history cpu,
            memory_history := histAppend m.memory_history memMb }, noOut)
  | .GoToGraph => some ({ m with screen := .Graph }, noOut)
  | .BackToMain => some ({ m with screen := .Main }, noOut)
  | .ThemeChanged t => some ({ m with current_theme := t }, noOut)
  | .EndTask pid =>
    match m.system.processes.find? (fun p => p.pid == pid) with
    | some p => some (m, { noOut with killSig := some p.pid })
    | none => some (m, noOut)
  | .ExportCSV =>
    match rankProcesses m.system.processes with
    | none => none
    | some ranked =>
      some (m, { noOut with
                 exported := some (buildCsv (m.system.cpu_count : ℚ) ranked) })

/-- The `match fs::write(...)` on lines 259–262: both arms only print, and
the function falls through to `Command::none()`; `true` means the event
loop continues, whatever the write's result. -/
def handleWriteResult (r : Except String Unit) : Bool :=
  match r with
  | .ok _ => true
  | .error _ => true

/-- `SystemMonitor::new` (lines 206–218), parameterised by the readings the
initial `refresh_all()` produced: both histories pre-filled with 100 zeros,
dark theme, main screen. -/
def initState (sys : SysState) : SystemMonitor :=
  { system := sys, cpu_usage := 0, memory_usage_mb := 0,
    screen := .Main, current_theme := .Dark,
    cpu_history := List.replicate 100 0,
    memory_history := List.replicate 100 0 }

/-- Folding `update` over a message sequence; a panic stops the run in the
last completed state. -/
def runMsgs (m : SystemMonitor) : List Message → SystemMonitor
  | [] => m
  | msg :: rest =>
    match update m msg with
    | some (m2, _) => runMsgs m2 rest
    | none => m

/-- The rows `main_view` displays: the ranked processes truncated to the
first 30 (lines 304–305 and 323); the truncation is presentation only. -/
def mainViewRows (s : SysState) : Option (List ProcessRecord) :=
  (rankProcesses s.processes).map (fun l => l.take 30)

/-- No process of the list carries a `NaN` cpu reading. -/
abbrev noNaN (ps : List ProcessRecord) : Prop :=
  ∀ p ∈ ps, p.cpu_usage.isNan = false

/-- What `insertRanked` computes on a panic-free run. -/
def pureInsert (x : ProcessRecord) : List ProcessRecord → List ProcessRecord
  | [] => [x]
  | y :: ys =>
    if x.cpu_usage.valOf < y.cpu_usage.valOf then y :: pureInsert x ys
    else x :: y :: ys

/-- What `rankProcesses` computes on a panic-free run. -/
def pureSort : List ProcessRecord → List ProcessRecord
  | [] => []
  | x :: xs => pureInsert x (pureSort xs)

/-! ### History buffer lemmas -/

lemma histAppend_length_eq (h : List ℚ) (v : ℚ) (hl : h.length = 100) :
    (histAppend h v).length = 100 := by
  simp [histAppend, List.length_eraseIdx, hl]

lemma update_preserves_lengths {m m2 : SystemMonitor} {msg : Message} {o : UpdateOutput}
    (h : update m msg = some (m2, o))
    (h1 : m.cpu_history.length = 100) (h2 : m.memory_history.length = 100) :
    m2.cpu_history.length = 100 ∧ m2.memory_history.length = 100 := by
  cases msg with
  | Tick s =>
    simp only [update, Option.some.injEq, Prod.mk.injEq] at h
    obtain ⟨hm, -⟩ := h
    subst hm
    exact ⟨histAppend_length_eq _ _ h1, histAppend_length_eq _ _ h2⟩
  | GoToGraph =>
    simp only [update, Option.some.injEq, Prod.mk.injEq] at h
    obtain ⟨hm, -⟩ := h
    subst hm
    exact ⟨h1, h2⟩
  | BackToMain =>
    simp only [update, Option.some.injEq, Prod.mk.injEq] at h
    obtain ⟨hm, -⟩ := h
    subst hm
    exact ⟨h1, h2⟩
  | ThemeChanged t =>
    simp only [update, Option.some.injEq, Prod.mk.injEq] at h
    obtain ⟨hm, -⟩ := h
    subst hm
    exact ⟨h1, h2⟩
  | EndTask pid =>
    cases hf : m.system.processes.find? (fun p => p.pid == pid) with
    | none =>
      simp only [update, hf, Option.some.injEq, Prod.mk.injEq] at h
      obtain ⟨hm, -⟩ := h
      subst hm
      exact ⟨h1, h2⟩
    | some p =>
      simp only [update, hf, Option.some.injEq, Prod.mk.injEq] at h
      obtain ⟨hm, -⟩ := h
      subst hm
      exact ⟨h1, h2⟩
  | ExportCSV =>
    cases hr : rankProcesses m.system.processes with
    | none => simp [update, hr] at h
    | some ranked =>
      simp only [update, hr, Option.some.injEq, Prod.mk.injEq] at h
      obtain ⟨hm, -⟩ := h
      subst hm
      exact ⟨h1, h2⟩

lemma runMsgs_lengths (msgs : List Message) :
    ∀ m : SystemMonitor, m.cpu_history.length = 100 → m.memory_history.length = 100 →
      (runMsgs m msgs).cpu_history.length = 100 ∧
        (runMsgs m msgs).memory_history.length = 100 := by
  induction msgs with
  | nil => exact fun m h1 h2 => ⟨h1, h2⟩
  | cons msg rest ih =>
    intro m h1 h2
    cases hu : update m msg with
    | none =>
      simp only [runMsgs, hu]
      exact ⟨h1, h2⟩
    | some p =>
      obtain ⟨m2, o⟩ := p
      simp only [runMsgs, hu]
      obtain ⟨g1, g2⟩ := update_preserves_lengths hu h1 h2
      exact ih m2 g1 g2

/-- C1: appending a value `v` to a full history buffer of 100 elements yields
exactly the old buffer with its oldest (front) element evicted and `v` at the
end. -/
theorem C1_full_buffer_append (h : List ℚ) (v : ℚ) (hfull : h.length = 100) :
    histAppend h v = h.tail ++ [v] := by
  cases h with
  | nil => simp at hfull
  | cons a t =>
    have hlen : 100 < ((a :: t) ++ [v]).length := by
      simp only [List.length_append, hfull, List.length_singleton]
      omega
    have hrw : histAppend (a :: t) v = ((a :: t) ++ [v]).eraseIdx 0 := by
      simp only [histAppend]
      exact if_pos hlen
    rw [hrw, List.cons_append, List.eraseIdx_cons_zero, List.tail_cons]

/-- C1 witness: a full buffer with a distinguished front element, appended with
5; the front is evicted and 5 stands at the end. -/
theorem C1_full_buffer_append_witness :
    ((0 : ℚ) :: List.replicate 99 1).length = 100 ∧
      histAppend ((0 : ℚ) :: List.replicate 99 1) 5 =
        ((0 : ℚ) :: List.replicate 99 1).tail ++ [5] :=
  ⟨by decide, C1_full_buffer_append _ 5 (by decide)⟩

/-- C2: along any sequence of `Tick` events from the initial state both history
buffers keep length at most the capacity 100 after every event, and once 100
appends have occurred the length is exactly 100 after every subsequent append
(both buffers start pre-filled, so the length is in fact always exactly 100). -/
theorem C2_history_length_invariant (sys0 : SysState) (pre : List SysState) :
    ((runMsgs (initState sys0) (pre.map Message.Tick)).cpu_history.length ≤ 100 ∧
      (runMsgs (initState sys0) (pre.map Message.Tick)).memory_history.length ≤ 100) ∧
    (100 ≤ pre.length →
      (runMsgs (initState sys0) (pre.map Message.Tick)).cpu_history.length = 100 ∧
        (runMsgs (initState sys0) (pre.map Message.Tick)).memory_history.length = 100) := by
  obtain ⟨g1, g2⟩ :=
    runMsgs_lengths (pre.map Message.Tick) (initState sys0)
      (by simp [initState]) (by simp [initState])
  exact ⟨⟨le_of_eq g1, le_of_eq g2⟩, fun _ => ⟨g1, g2⟩⟩

/-- C10: in every reachable state (any message sequence applied to the initial
state) the cpu and memory histories have equal length, namely exactly 100. -/
theorem C10_histories_equal_length (sys0 : SysState) (msgs : List Message) :
    (runMsgs (initState sys0) msgs).cpu_history.length =
      (runMsgs (initState sys0) msgs).memory_history.length ∧
    (runMsgs (initState sys0) msgs).cpu_history.length = 100 := by
  obtain ⟨g1, g2⟩ :=
    runMsgs_lengths msgs (initState sys0) (by simp [initState]) (by simp [initState])
  exact ⟨g1.trans g2.symm, g1⟩

/-- C8: from the initial state (cpu history pre-filled with 100 zeros), one
tick whose sampled global CPU value is 12.5 leaves the cpu history as 99 zeros
followed by 12.5. -/
theorem C8_first_tick_history (sys0 s : SysState) (hcpu : s.global_cpu = 12.5) :
    ∃ m2 o, update (initState sys0) (Message.Tick s) = some (m2, o) ∧
      m2.cpu_history = List.replicate 99 0 ++ [(12.5 : ℚ)] := by
  refine ⟨_, _, rfl, ?_⟩
  show histAppend (initState sys0).cpu_history s.global_cpu = _
  rw [hcpu]
  show histAppend (List.replicate 100 0) 12.5 = _
  have hlen : 100 < ((List.replicate 100 (0 : ℚ)) ++ [(12.5 : ℚ)]).length := by
    simp
  have hrw : histAppend (List.replicate 100 0) 12.5 =
      ((List.replicate 100 (0 : ℚ)) ++ [(12.5 : ℚ)]).eraseIdx 0 := by
    simp only [histAppend]
    exact if_pos hlen
  rw [hrw, List.replicate_succ, List.cons_append, List.eraseIdx_cons_zero]

/-- C8 witness: the tick at a concrete initial system state. -/
theorem C8_first_tick_history_witness :
    ∃ m2 o, update (initState ⟨0, 0, 1, []⟩) (Message.Tick ⟨12.5, 0, 1, []⟩) =
        some (m2, o) ∧
      m2.cpu_history = List.replicate 99 0 ++ [(12.5 : ℚ)] :=
  C8_first_tick_history _ _ rfl

/-! ### Ranking lemmas -/

lemma FVal.exists_val {f : FVal} (h : f.isNan = false) : ∃ q, f = FVal.val q := by
  cases f with
  | nan => simp [FVal.isNan] at h
  | val q => exact ⟨q, rfl⟩

lemma insertRanked_eq_pure (x : ProcessRecord) (l : List ProcessRecord)
    (hx : x.cpu_usage.isNan = false) (hl : ∀ p ∈ l, p.cpu_usage.isNan = false) :
    insertRanked x l = some (pureInsert x l) := by
  induction l with
  | nil => rfl
  | cons y ys ih =>
    obtain ⟨a, ha⟩ := FVal.exists_val hx
    obtain ⟨b, hb⟩ := FVal.exists_val (hl y (List.mem_cons_self y ys))
    have ih2 := ih (fun p hp => hl p (List.mem_cons_of_mem _ hp))
    by_cases hab : a < b
    · have hnb : ¬b < a := lt_asymm hab
      simp [insertRanked, pureInsert, processCmp, ha, hb, FVal.partCmp, FVal.valOf,
        hab, hnb, ih2]
    · by_cases hba : b < a
      · simp [insertRanked, pureInsert, processCmp, ha, hb, FVal.partCmp, FVal.valOf,
          hab, hba]
      · simp [insertRanked, pureInsert, processCmp, ha, hb, FVal.partCmp, FVal.valOf,
          hab, hba]

lemma pureInsert_perm (x : ProcessRecord) (l : List ProcessRecord) :
    List.Perm (pureInsert x l) (x :: l) := by
  induction l with
  | nil => exact List.Perm.refl _
  | cons y ys ih =>
    by_cases hlt : x.cpu_usage.valOf < y.cpu_usage.valOf
    · simp only [pureInsert, if_pos hlt]
      exact (ih.cons y).trans (List.Perm.swap x y ys)
    · simp only [pureInsert, if_neg hlt]
      exact List.Perm.refl _

lemma pureSort_perm (l : List ProcessRecord) : List.Perm (pureSort l) l := by
  induction l with
  | nil => exact List.Perm.refl _
  | cons x xs ih =>
    exact (pureInsert_perm x (pureSort xs)).trans (ih.cons x)

lemma rankProcesses_eq_pure (ps : List ProcessRecord) (h : noNaN ps) :
    rankProcesses ps = some (pureSort ps) := by
  induction ps with
  | nil => rfl
  | cons x xs ih =>
    have hxs : noNaN xs := fun p hp => h p (List.mem_cons_of_mem _ hp)
    rw [rankProcesses, ih hxs, Option.some_bind]
    exact insertRanked_eq_pure x (pureSort xs) (h x (List.mem_cons_self x xs))
      (fun p hp => hxs p ((pureSort_perm xs).mem_iff.mp hp))

lemma pureInsert_pairwise (x : ProcessRecord) (l : List ProcessRecord)
    (h : List.Pairwise (fun a b => b.cpu_usage.valOf ≤ a.cpu_usage.valOf) l) :
    List.Pairwise (fun a b => b.cpu_usage.valOf ≤ a.cpu_usage.valOf)
      (pureInsert x l) := by
  induction l with
  | nil => simp [pureInsert]
  | cons y ys ih =>
    obtain ⟨hy, hys⟩ := List.pairwise_cons.mp h
    by_cases hlt : x.cpu_usage.valOf < y.cpu_usage.valOf
    · simp only [pureInsert, if_pos hlt]
      refine List.pairwise_cons.mpr ⟨?_, ih hys⟩
      intro z hz
      rcases List.mem_cons.mp ((pureInsert_perm x ys).mem_iff.mp hz) with hzx | hzy
      · subst hzx
        exact le_of_lt hlt
      · exact hy z hzy
    · simp only [pureInsert, if_neg hlt]
      refine List.pairwise_cons.mpr ⟨?_, h⟩
      intro z hz
      rcases List.mem_cons.mp hz with hzy | hzys
      · subst hzy
        exact not_lt.mp hlt
      · exact le_trans (hy z hzys) (not_lt.mp hlt)

lemma pureSort_pairwise (l : List ProcessRecord) :
    List.Pairwise (fun a b => b.cpu_usage.valOf ≤ a.cpu_usage.valOf)
      (pureSort l) := by
  induction l with
  | nil => exact List.Pairwise.nil
  | cons x xs ih => exact pureInsert_pairwise x (pureSort xs) ih

lemma pureInsert_filter (k : ℚ) (x : ProcessRecord) (l : List ProcessRecord) :
    (pureInsert x l).filter (fun p => decide (p.cpu_usage.valOf = k)) =
      (x :: l).filter (fun p => decide (p.cpu_usage.valOf = k)) := by
  induction l with
  | nil => rfl
  | cons y ys ih =>
    by_cases hlt : x.cpu_usage.valOf < y.cpu_usage.valOf
    · simp only [pureInsert, if_pos hlt]
      by_cases hx : x.cpu_usage.valOf = k
      · have hy : ¬y.cpu_usage.valOf = k := by
          intro hy
          rw [hx, hy] at hlt
          exact lt_irrefl k hlt
        simp [List.filter_cons, hx, hy, ih]
      · by_cases hy : y.cpu_usage.valOf = k
        · simp [List.filter_cons, hx, hy, ih]
        · simp [List.filter_cons, hx, hy, ih]
    · simp only [pureInsert, if_neg hlt]

lemma pureSort_filter (k : ℚ) (l : List ProcessRecord) :
    (pureSort l).filter (fun p => decide (p.cpu_usage.valOf = k)) =
      l.filter (fun p => decide (p.cpu_usage.valOf = k)) := by
  induction l with
  | nil => rfl
  | cons x xs ih =>
    rw [pureSort, pureInsert_filter k x (pureSort xs)]
    by_cases hx : x.cpu_usage.valOf = k
    · simp [List.filter_cons, hx, ih]
    · simp [List.filter_cons, hx, ih]

/-! ### Claims about ranking, normalization, export and termination -/

/-- C3: on any NaN-free input the ranking succeeds, is a permutation of the
input (no entry is dropped), is ordered descending by raw cpu percent, and is
stable: for every raw value the records carrying it keep their input order. -/
theorem C3_rank_stable_descending (ps : List ProcessRecord) (h : noNaN ps) :
    ∃ out, rankProcesses ps = some out ∧
      List.Perm out ps ∧
      List.Pairwise (fun a b => b.cpu_usage.valOf ≤ a.cpu_usage.valOf) out ∧
      ∀ k : ℚ, out.filter (fun p => decide (p.cpu_usage.valOf = k)) =
        ps.filter (fun p => decide (p.cpu_usage.valOf = k)) :=
  ⟨pureSort ps, rankProcesses_eq_pure ps h, pureSort_perm ps, pureSort_pairwise ps,
    fun k => pureSort_filter k ps⟩

/-- The spec's ranking example: raw values 10, 50, 50, 5 in that input order. -/
def exampleProcs : List ProcessRecord :=
  [⟨1, "p10", FVal.val 10, 0⟩, ⟨2, "p50a", FVal.val 50, 0⟩,
    ⟨3, "p50b", FVal.val 50, 0⟩, ⟨4, "p5", FVal.val 5, 0⟩]

/-- C3 witness: the ranking example computed — [50 (first), 50 (second), 10, 5],
the two equal entries in their input order — and the general theorem at it. -/
theorem C3_rank_stable_descending_witness :
    noNaN exampleProcs ∧
      rankProcesses exampleProcs =
        some [⟨2, "p50a", FVal.val 50, 0⟩, ⟨3, "p50b", FVal.val 50, 0⟩,
          ⟨1, "p10", FVal.val 10, 0⟩, ⟨4, "p5", FVal.val 5, 0⟩] ∧
      (∃ out, rankProcesses exampleProcs = some out ∧
        List.Perm out exampleProcs ∧
        List.Pairwise (fun a b => b.cpu_usage.valOf ≤ a.cpu_usage.valOf) out ∧
        ∀ k : ℚ, out.filter (fun p => decide (p.cpu_usage.valOf = k)) =
          exampleProcs.filter (fun p => decide (p.cpu_usage.valOf = k))) :=
  ⟨by decide, by decide, C3_rank_stable_descending exampleProcs (by decide)⟩

/-- C9: with no NaN cpu reading the comparator is total on the input (the
`unwrap` cannot reach its panic branch) and both the export's sort and the
view's rows succeed; with a NaN reading present, the panic branch is
reachable. -/
theorem C9_comparator_total_iff_no_nan :
    (∀ ps : List ProcessRecord, noNaN ps →
        (∀ a ∈ ps, ∀ b ∈ ps, processCmp a b ≠ none) ∧
          (rankProcesses ps).isSome = true) ∧
    (∀ s : SysState, noNaN s.processes → (mainViewRows s).isSome = true) ∧
    (∃ ps : List ProcessRecord, (∃ p ∈ ps, p.cpu_usage = FVal.nan) ∧
        rankProcesses ps = none) := by
  refine ⟨fun ps h => ⟨?_, ?_⟩, fun s h => ?_, ?_⟩
  · intro a ha b hb
    obtain ⟨qa, hqa⟩ := FVal.exists_val (h a ha)
    obtain ⟨qb, hqb⟩ := FVal.exists_val (h b hb)
    simp [processCmp, hqa, hqb, FVal.partCmp]
  · rw [rankProcesses_eq_pure ps h]
    rfl
  · simp [mainViewRows, rankProcesses_eq_pure s.processes h]
  · exact ⟨[⟨1, "n", FVal.nan, 0⟩, ⟨2, "p", FVal.val 1, 0⟩],
      ⟨⟨1, "n", FVal.nan, 0⟩, List.mem_cons_self _ _, rfl⟩, by decide⟩

/-- C4: the normalized CPU percent is the raw cpu percent divided by the core
count; in particular with core count 4 and raw 200 it is 50. -/
theorem C4_normalized_cpu (p : ProcessRecord) (cnt q : ℚ)
    (hq : p.cpu_usage = FVal.val q) (hpos : 0 < cnt) :
    normalizedCpuUsage p cnt = FVal.val (q / cnt) ∧
      normalizedCpuUsage ⟨0, "x", FVal.val 200, 0⟩ 4 = FVal.val 50 := by
  constructor
  · rw [normalizedCpuUsage, hq]
    rfl
  · show FVal.val ((200 : ℚ) / 4) = FVal.val 50
    have h4 : (200 : ℚ) / 4 = 50 := by norm_num
    rw [h4]

/-- C4 witness: the theorem applied at raw 200 and core count 4. -/
theorem C4_normalized_cpu_witness :
    (⟨0, "x", FVal.val 200, 0⟩ : ProcessRecord).cpu_usage = FVal.val 200 ∧
      (0 : ℚ) < 4 ∧
      (normalizedCpuUsage ⟨0, "x", FVal.val 200, 0⟩ 4 = FVal.val (200 / 4) ∧
        normalizedCpuUsage ⟨0, "x", FVal.val 200, 0⟩ 4 = FVal.val 50) :=
  ⟨rfl, by decide, C4_normalized_cpu _ 4 200 rfl (by decide)⟩

/-- C6: `EndTask` with a pid absent from the current snapshot is a silent
no-op: the update succeeds, the whole state (snapshot, histories, process
list) is returned unchanged, and no kill signal is issued. -/
theorem C6_endtask_absent_noop (m : SystemMonitor) (pid : ℕ)
    (h : ∀ p ∈ m.system.processes, p.pid ≠ pid) :
    update m (Message.EndTask pid) = some (m, noOut) := by
  have hf : m.system.processes.find? (fun p => p.pid == pid) = none :=
    List.find?_eq_none.mpr (fun p hp => by simp [h p hp])
  simp [update, hf]

/-- A concrete state shared by several witnesses: one process named `a,b`
with raw cpu 200 and 3 MB of memory, on a 4-core host. -/
def exampleMonitor : SystemMonitor :=
  initState ⟨0, 0, 4, [⟨7, "a,b", FVal.val 200, 3000000⟩]⟩

/-- C6 witness: terminating pid 99, absent from the snapshot, at the concrete
state. -/
theorem C6_endtask_absent_noop_witness :
    update exampleMonitor (Message.EndTask 99) = some (exampleMonitor, noOut) :=
  C6_endtask_absent_noop exampleMonitor 99 (by decide)

/-- C7: whenever an export completes — so whether the subsequent file write
succeeds or fails — the in-memory state is exactly the pre-export state
(histories and snapshot included), and both arms of the write-result handler
let the loop continue. -/
theorem C7_export_preserves_state (m m2 : SystemMonitor) (o : UpdateOutput)
    (h : update m Message.ExportCSV = some (m2, o)) :
    m2 = m ∧ m2.cpu_history = m.cpu_history ∧ m2.memory_history = m.memory_history ∧
      m2.system = m.system ∧ ∀ r : Except String Unit, handleWriteResult r = true := by
  cases hr : rankProcesses m.system.processes with
  | none => simp [update, hr] at h
  | some ranked =>
    simp only [update, hr, Option.some.injEq, Prod.mk.injEq] at h
    obtain ⟨hm, -⟩ := h
    subst hm
    exact ⟨rfl, rfl, rfl, rfl, fun r => by cases r <;> rfl⟩

/-- C7 witness: the export at a concrete state returns that state unchanged. -/
theorem C7_export_preserves_state_witness :
    initState ⟨0, 0, 1, []⟩ = initState ⟨0, 0, 1, []⟩ ∧
      (initState ⟨0, 0, 1, []⟩).cpu_history = (initState ⟨0, 0, 1, []⟩).cpu_history ∧
      (initState ⟨0, 0, 1, []⟩).memory_history =
        (initState ⟨0, 0, 1, []⟩).memory_history ∧
      (initState ⟨0, 0, 1, []⟩).system = (initState ⟨0, 0, 1, []⟩).system ∧
      ∀ r : Except String Unit, handleWriteResult r = true :=
  C7_export_preserves_state (initState ⟨0, 0, 1, []⟩) (initState ⟨0, 0, 1, []⟩)
    ⟨some (buildCsv ((1 : ℕ) : ℚ) []), none⟩ rfl

lemma fmt2_mkRat_25_2 : fmt2 (mkRat 25 2) = "12.50" := by
  have h : (mkRat 25 2 : ℚ) * 100 = 1250 := by
    rw [Rat.mkRat_eq_div]
    norm_num
  have hr : round ((mkRat 25 2 : ℚ) * 100) = 1250 := by
    rw [h]
    norm_num
  simp only [fmt2, hr]
  decide

/-- C5: the text the export writes is the fixed three-field header followed by
exactly one line per process of the snapshot (the ranked list is a permutation
of it — nothing is truncated or dropped), each line comma-delimited with the
two numeric values printed to two decimal places, names sanitized by replacing
each comma with a period; in particular `a,b` appears as `a.b`, and a value
12.5 prints as `12.50`. -/
theorem C5_export_format (m : SystemMonitor) (h : noNaN m.system.processes) :
    ∃ ranked, rankProcesses m.system.processes = some ranked ∧
      List.Perm ranked m.system.processes ∧
      update m Message.ExportCSV = some (m,
        { exported := some (csvHeader ++
            String.join (ranked.map (csvLine (m.system.cpu_count : ℚ)))),
          killSig := none }) ∧
      (ranked.map (csvLine (m.system.cpu_count : ℚ))).length =
        m.system.processes.length ∧
      sanitizeName "a,b" = "a.b" ∧
      fmt2 (mkRat 25 2) = "12.50" := by
  refine ⟨pureSort m.system.processes, rankProcesses_eq_pure _ h, pureSort_perm _,
    ?_, ?_, by decide, fmt2_mkRat_25_2⟩
  · simp [update, rankProcesses_eq_pure _ h, buildCsv, noOut]
  · simp [(pureSort_perm m.system.processes).length_eq]

/-- C5 witness: the export format at the concrete state whose single process
is named `a,b`. -/
theorem C5_export_format_witness :
    noNaN exampleMonitor.system.processes ∧
      (∃ ranked, rankProcesses exampleMonitor.system.processes = some ranked ∧
        List.Perm ranked exampleMonitor.system.processes ∧
        update exampleMonitor Message.ExportCSV = some (exampleMonitor,
          { exported := some (csvHeader ++
              String.join (ranked.map
                (csvLine (exampleMonitor.system.cpu_count : ℚ)))),
            killSig := none }) ∧
        (ranked.map (csvLine (exampleMonitor.system.cpu_count : ℚ))).length =
          exampleMonitor.system.processes.length ∧
        sanitizeName "a,b" = "a.b" ∧
        fmt2 (mkRat 25 2) = "12.50") :=
  ⟨by decide, C5_export_format exampleMonitor (by decide)⟩
